import Mathlib

/-!
# Verification of the Numbrle puzzle engine (`src/game.ts`, `src/App.tsx`)

Shallow embedding of the TypeScript source. JavaScript strings are modelled
as lists of UTF-16 code units (`Str := List Nat`); all characters occurring
in the game are ASCII or Latin-1, so code units coincide with code points.
JavaScript numbers are modelled as `Nat`/`Int`: every numeric value reachable
in this program (operands of at most 5 digits, products below 10^7) is an
exact double, so exact integer arithmetic agrees with the source, except in
`getDailyTarget` where the 32-bit wraparound of `<< 5` and `| 0` is modelled
explicitly.
-/

set_option maxRecDepth 100000
set_option maxHeartbeats 4000000

namespace Numbrle

/-- A JavaScript string: list of UTF-16 code units. -/
abbrev Str := List Nat

/-- Code units of a Lean string literal (all characters used are below U+10000,
so code points equal code units). -/
def ofString (s : String) : Str := s.toList.map Char.toNat

/-- `ch >= '0' && ch <= '9'` from `evaluate`. -/
def isDigitCh (c : Nat) : Bool := 48 ≤ c && c ≤ 57

/-- `'+-×÷'.includes(ch)` from `evaluate`: `+` 43, `-` 45, `×` 215, `÷` 247. -/
def isOpCh (c : Nat) : Bool := c == 43 || c == 45 || c == 215 || c == 247

/-- `Number(s)` on a run of decimal digits (the only use in `evaluate`):
standard decimal value, leading zeros allowed. -/
def digitsToNat (s : Str) : Nat := s.foldl (fun a d => a * 10 + (d - 48)) 0

/-- Little-endian digit code units of `n` (`fuel` bounds the recursion;
`natToChars` supplies enough). -/
def natToCharsAux : Nat → Nat → List Nat
  | 0, _ => []
  | fuel + 1, n => if n < 10 then [48 + n] else (48 + n % 10) :: natToCharsAux fuel (n / 10)

/-- JavaScript `String(n)` for a non-negative integer `n`. -/
def natToChars (n : Nat) : Str := (natToCharsAux (n + 1) n).reverse

/-- JavaScript `String(v)` for an integer: prepends `-` (45) when negative. -/
def intToChars (v : Int) : Str :=
  if v < 0 then 45 :: natToChars v.natAbs else natToChars v.natAbs

/-- JavaScript `s.padStart(n, c)` (single pad character). -/
def padStart (n : Nat) (c : Nat) (s : Str) : Str := List.replicate (n - s.length) c ++ s

/-- JavaScript `s.split(sep)` for a single-character separator `sep`. -/
def jsSplit (sep : Nat) : Str → List Str
  | [] => [[]]
  | c :: cs =>
    if c = sep then [] :: jsSplit sep cs
    else
      match jsSplit sep cs with
      | [] => [[c]]
      | p :: ps => (c :: p) :: ps

/-!
## Expression evaluator (`evaluate`, game.ts lines 25-81)

The tokenizer loop of lines 31-44 carries the mutable `numBuf`; it is embedded
as `tokenizeAux` with `numBuf` as an accumulator. The token array
`[num, op, num, …, num]` built by the source is strictly alternating and is
represented in that shape: the leading number literal together with the list
of `(operator, number literal)` pairs read at stride 2 by the loop of
lines 55-72. Number tokens keep their digit strings (`value: string` in the
source); `Number` is applied at use site exactly as in the source.
-/

/-- Tokenizer of `evaluate` (lines 31-47). Returns `none` on the failures of
lines 35, 40 and 43, otherwise the first number literal and the
`(operator, number literal)` pairs. -/
def tokenizeAux (numBuf : Str) : Str → Option (Str × List (Nat × Str))
  | [] => if numBuf.isEmpty then none else some (numBuf, [])
  | c :: cs =>
    if isDigitCh c then tokenizeAux (numBuf ++ [c]) cs
    else if isOpCh c then
      if numBuf.isEmpty then none
      else
        match tokenizeAux [] cs with
        | none => none
        | some (n2, rest) => some (numBuf, (c, n2) :: rest)
    else none

def tokenize (expr : Str) : Option (Str × List (Nat × Str)) := tokenizeAux [] expr

/-- First pass of `evaluate` (lines 50-72). `nums` is the source's `nums`
array with its top (`pop`/`push` end) at the head, `ops` the source's `ops`
array most-recent-first; `evaluate` reverses both afterwards. `nums` is never
empty at a call (it starts as `[first]` and every branch pushes); the `[]`
case mirrors that `pop()` of an empty array is unreachable. -/
def evalLoop (nums : List Nat) (ops : List Nat) : List (Nat × Str) → Option (List Nat × List Nat)
  | [] => some (nums, ops)
  | (op, numStr) :: rest =>
    let num := digitsToNat numStr
    if op = 215 ∨ op = 247 then
      match nums with
      | [] => none
      | prev :: below =>
        if op = 215 then evalLoop (prev * num :: below) ops rest
        else if num = 0 then none
        else if prev % num ≠ 0 then none  -- `!Number.isInteger(prev / num)`
        else evalLoop (prev / num :: below) ops rest
    else evalLoop (num :: nums) (op :: ops) rest

/-- Second pass of `evaluate` (lines 74-78): fold the remaining `+`/`-`
left to right; any operator other than `+` subtracts, as in the source's
`else`. `nums` is in source order, `nums[i+1]` is `nums.tail[i]`. -/
def addFold : List Nat → List Nat → Option Int
  | [], _ => none  -- unreachable: `nums` always holds at least one number
  | n :: rest, ops =>
    some ((ops.zip rest).foldl (fun acc p => if p.1 = 43 then acc + p.2 else acc - p.2) (n : Int))

/-- `evaluate(expr)` (game.ts lines 25-81); `none` is the source's `null`. -/
def evaluate (expr : Str) : Option Int :=
  match tokenize expr with
  | none => none
  | some (first, pairs) =>
    match evalLoop [digitsToNat first] [] pairs with
    | none => none
    | some (numsRev, opsRev) => addFold numsRev.reverse opsRev.reverse

/-!
## Solution synthesizer (`findSolution` / `getCanonicalSolution`, lines 163-277)

The nested `for` loops with early `return` are embedded as `findSome?` over
the same ranges in the same order; `findSome?` returns the first hit, which
is exactly the loop's first `return`.
-/

/-- `const ops = ['+', '-', '×', '÷']` (line 185). -/
def opsList : List Nat := [43, 45, 215, 247]

/-- Length-4 block, first part (lines 191-205): per `(op, a, b)` try
`aStr + op + b` then `b + op + aStr` with `aStr = String(a).padStart(2,'0')`. -/
def find4a (target len : Nat) : Option Str :=
  opsList.findSome? fun op =>
    (List.range 100).findSome? fun a =>
      (List.range 10).findSome? fun b =>
        let aStr := padStart 2 48 (natToChars a)
        let expr := aStr ++ op :: natToChars b
        if expr.length = len ∧ evaluate expr = some (target : Int) then some expr
        else
          let expr2 := natToChars b ++ op :: aStr
          if expr2.length = len ∧ evaluate expr2 = some (target : Int) then some expr2 else none

/-- Length-4 block, second part (lines 207-215): `String(a) + op + String(b)`
for `a` in 100..999 (every such expression has length 5, so the
`expr.length === length` test never passes for `len = 4`, as in the source). -/
def find4b (target len : Nat) : Option Str :=
  opsList.findSome? fun op =>
    (List.range 900).findSome? fun a0 =>
      (List.range 10).findSome? fun b =>
        let expr := natToChars (a0 + 100) ++ op :: natToChars b
        if expr.length = len ∧ evaluate expr = some (target : Int) then some expr else none

/-- Length-3 block (lines 218-228): single digit, operator, single digit. -/
def find3 (target len : Nat) : Option Str :=
  opsList.findSome? fun op =>
    (List.range 10).findSome? fun a =>
      (List.range 10).findSome? fun b =>
        let expr := natToChars a ++ op :: natToChars b
        if expr.length = len ∧ evaluate expr = some (target : Int) then some expr else none

/-- Length-5 block (lines 241-273): `AB op CD`, then `ABC op D` / `D op ABC`,
then the two-operator digit triples. -/
def find5 (target len : Nat) : Option Str :=
  (opsList.findSome? fun op =>
    ((List.range 90).findSome? fun a0 =>
      (List.range 90).findSome? fun b0 =>
        let expr := natToChars (a0 + 10) ++ op :: natToChars (b0 + 10)
        if expr.length = len ∧ evaluate expr = some (target : Int) then some expr else none)
    <|>
    ((List.range 900).findSome? fun a0 =>
      (List.range 10).findSome? fun b =>
        let expr := natToChars (a0 + 100) ++ op :: natToChars b
        if expr.length = len ∧ evaluate expr = some (target : Int) then some expr
        else
          let expr2 := natToChars b ++ op :: natToChars (a0 + 100)
          if expr2.length = len ∧ evaluate expr2 = some (target : Int) then some expr2 else none))
  <|>
  (opsList.findSome? fun op1 =>
    opsList.findSome? fun op2 =>
      (List.range 10).findSome? fun a =>
        (List.range 10).findSome? fun b =>
          (List.range 10).findSome? fun c =>
            let expr := natToChars a ++ op1 :: natToChars b ++ op2 :: natToChars c
            if expr.length = len ∧ evaluate expr = some (target : Int) then some expr else none)

/-- `findSolution(target, length)` (lines 183-277). The length-2 block
(lines 230-239) has an empty loop body in the source and contributes nothing.
The fallback of lines 275-276 is the zero-padded decimal string. -/
def findSolution (target len : Nat) : Str :=
  match (if len = 4 then find4a target len <|> find4b target len else none)
      <|> (if len = 3 then find3 target len else none)
      <|> (if len = 5 then find5 target len else none) with
  | some expr => expr
  | none => padStart len 48 (natToChars target)

/-- `getCanonicalSolution(target)` (lines 163-181):
`findSolution(target, 6 - ('=' + String(target)).length) + '=' + String(target)`. -/
def getCanonicalSolution (target : Nat) : Str :=
  let targetStr := natToChars target
  let rightSide := 61 :: targetStr
  findSolution target (6 - rightSide.length) ++ rightSide

/-!
## Guess validator (`validateGuess`, lines 83-115)
-/

/-- Result record `{ valid: boolean; error?: string }`. -/
structure ValidationResult where
  valid : Bool
  error : Option Str
deriving DecidableEq

/-- `Number(s)` on the strings that can reach line 100: characters are drawn
from the game alphabet minus `=`. On that alphabet JavaScript `Number`
returns a value exactly for an optional single leading sign followed by one
or more digits (`none` models `NaN`). The outcome of the check on line 101
is independent of the corner cases of `Number` because its last disjunct
compares the string itself against `String(target)` (proved below). -/
def jsNumber (s : Str) : Option Int :=
  match s with
  | [] => some 0
  | c :: rest =>
    if c = 43 then
      if rest ≠ [] ∧ rest.all isDigitCh then some (digitsToNat rest) else none
    else if c = 45 then
      if rest ≠ [] ∧ rest.all isDigitCh then some (-(digitsToNat rest : Int)) else none
    else if (c :: rest).all isDigitCh then some (digitsToNat (c :: rest)) else none

/-- `` `Equation must be ${EQUATION_LENGTH} characters` `` (line 85). -/
def msgLength : Str := ofString "Equation must be " ++ natToChars 6 ++ ofString " characters"

/-- `'Equation must contain exactly one ='` (line 91). -/
def msgOneEq : Str := ofString "Equation must contain exactly one ="

/-- `'Both sides of = must have values'` (line 96). -/
def msgSides : Str := ofString "Both sides of = must have values"

/-- `` `Right side must equal ${target}` `` (line 102). -/
def msgRight (target : Nat) : Str := ofString "Right side must equal " ++ natToChars target

/-- `'Invalid expression'` (line 108). -/
def msgInvalid : Str := ofString "Invalid expression"

/-- `` `Expression equals ${leftVal}, not ${target}` `` (line 111). -/
def msgNotTarget (leftVal : Int) (target : Nat) : Str :=
  ofString "Expression equals " ++ intToChars leftVal ++ ofString ", not " ++ natToChars target

/-- `validateGuess(guess, target)` (lines 83-115). `target` comes from
`getDailyTarget`, a non-negative integer. -/
def validateGuess (guess : Str) (target : Nat) : ValidationResult :=
  if guess.length ≠ 6 then ⟨false, some msgLength⟩
  else
    match jsSplit 61 guess with
    | [left, right] =>
      if left.length = 0 ∨ right.length = 0 then ⟨false, some msgSides⟩
      else
        -- line 101: `isNaN(rightVal) || rightVal !== target || right !== String(target)`
        let bad := match jsNumber right with
          | none => true
          | some v => decide (v ≠ (target : Int) ∨ right ≠ natToChars target)
        if bad then ⟨false, some (msgRight target)⟩
        else
          match evaluate left with
          | none => ⟨false, some msgInvalid⟩
          | some leftVal =>
            if leftVal ≠ (target : Int) then ⟨false, some (msgNotTarget leftVal target)⟩
            else ⟨true, none⟩
    | _ => ⟨false, some msgOneEq⟩

/-!
## Feedback scorer (`getGuessResult`, lines 117-159)

The two index loops are embedded as countdown recursions: `k` counts the
remaining iterations, `i` is the current index (`i` starts at 0 with
`k = EQUATION_LENGTH`). Array cell reads are `List.get?` (`none` models
reading beyond the end, JavaScript `undefined`); `===` on two such reads is
`Option` equality, which agrees with JavaScript on every case that arises.
-/

/-- `type CellState` (line 117). -/
inductive CellState where
  | correct
  | present
  | absent
  | empty
deriving DecidableEq

open CellState

/-- First pass (lines 139-144): mark greens and consume those positions. -/
def pass1Go (guess sol : Str) : Nat → Nat → List CellState → List Bool → List CellState × List Bool
  | 0, _, res, used => (res, used)
  | k + 1, i, res, used =>
    if guess[i]? = sol[i]? then
      pass1Go guess sol k (i + 1) (res.set i correct) (used.set i true)
    else pass1Go guess sol k (i + 1) res used

/-- Inner loop of the second pass (lines 149-155): first `j` (scanning `k`
positions from `j0`) with `!used[j] && guessChars[i] === solutionChars[j]`. -/
def findFirstJ (g : Option Nat) (sol : Str) (used : List Bool) : Nat → Nat → Option Nat
  | 0, _ => none
  | k + 1, j => if used[j]? = some false ∧ g = sol[j]? then some j
                else findFirstJ g sol used k (j + 1)

/-- Second pass (lines 147-156): mark yellows, consuming the first available
matching solution position. -/
def pass2Go (guess sol : Str) : Nat → Nat → List CellState → List Bool → List CellState × List Bool
  | 0, _, res, used => (res, used)
  | k + 1, i, res, used =>
    if res[i]? = some correct then pass2Go guess sol k (i + 1) res used
    else
      match findFirstJ guess[i]? sol used 6 0 with
      | some j => pass2Go guess sol k (i + 1) (res.set i present) (used.set j true)
      | none => pass2Go guess sol k (i + 1) res used

/-- `getGuessResult(guess, target)` (lines 119-159). -/
def getGuessResult (guess : Str) (target : Nat) : List CellState :=
  let canonical := getCanonicalSolution target
  let p1 := pass1Go guess canonical 6 0 (List.replicate 6 absent) (List.replicate 6 false)
  (pass2Go guess canonical 6 0 p1.1 p1.2).1

/-!
## Daily target (`getDailyTarget`, lines 1-10)

The date string `` `${y}-${MM}-${DD}` `` is built from the local calendar
components; `m` is the 1-based month (`date.getMonth() + 1`). The hash value
is kept as a signed 32-bit integer (`Int` in `[-2^31, 2^31)`).
-/

/-- Reinterpret an integer's low 32 bits as a signed 32-bit value: the result
of every JavaScript `int32` producing operation (`<< `, `| 0`). -/
def toInt32 (n : Int) : Int := (n + 2147483648) % 4294967296 - 2147483648

/-- `hash = ((hash << 5) - hash + dateStr.charCodeAt(i)) | 0` (line 6):
`hash << 5` wraps to int32, the subtraction and addition are exact doubles,
`| 0` wraps the result to int32. -/
def hashStep (hash : Int) (c : Nat) : Int := toInt32 (toInt32 (hash * 32) - hash + c)

/-- The hash loop of lines 4-7. -/
def jsHash (s : Str) : Int := s.foldl hashStep 0

/-- `` `${year}-${month+1 padded}-${day padded}` `` (line 3); `m`, `d` are the
1-based month and the day of month. -/
def dateString (y m d : Nat) : Str :=
  natToChars y ++ 45 :: (padStart 2 48 (natToChars m) ++ 45 :: padStart 2 48 (natToChars d))

/-- `hash & 0x7fffffff` on a signed 32-bit value: keep the low 31 bits of the
two's-complement representation. -/
def mask31 (h : Int) : Int := h % 4294967296 % 2147483648

/-- `getDailyTarget(date)` (lines 2-10), as a function of the local calendar
components of its argument. -/
def getDailyTarget (y m d : Nat) : Int := mask31 (jsHash (dateString y m d)) % 99 + 1

/-!
## Stats update on game completion (`submitGuess`, App.tsx lines 84-99)
-/

/-- `GameStats` (game.ts lines 282-289); every field is a JavaScript number,
exact integers here. -/
structure GameStats where
  played : Int
  won : Int
  streak : Int
  maxStreak : Int
  guessDistribution : List Int
  lastDay : Int
deriving DecidableEq

/-- The stats update run when a game completes (App.tsx lines 88-99):
`guessCount` is `newGuesses.length` (between 1 and 6 at every call site, so
the distribution update hits an existing slot). -/
def updateStatsOnFinish (stats : GameStats) (isWin : Bool) (dayNumber : Int)
    (guessCount : Nat) : GameStats :=
  let afterPlayed := { stats with played := stats.played + 1 }
  let afterResult :=
    if isWin then
      let streakNew :=
        if stats.lastDay = dayNumber - 1 ∨ stats.lastDay = 0 then stats.streak + 1 else 1
      { afterPlayed with
        won := afterPlayed.won + 1
        streak := streakNew
        maxStreak := max afterPlayed.maxStreak streakNew
        guessDistribution :=
          afterPlayed.guessDistribution.set (guessCount - 1)
            (afterPlayed.guessDistribution.getD (guessCount - 1) 0 + 1) }
    else { afterPlayed with streak := 0 }
  { afterResult with lastDay := dayNumber }

/-!
## Spec-side definitions

Predicates and functions transcribed from the specification's wording, used
to state the claims; the theorems below compare them with the embedded code.
-/

/-- Spec: "fails if an operator appears without a preceding number" — the
case of an operator as the first character. -/
def StartsWithOp (expr : Str) : Prop := ∃ c rest, expr = c :: rest ∧ isOpCh c

/-- Spec: "fails if an operator appears without a preceding number" — the
case of an operator directly following another operator. -/
def HasAdjacentOps (expr : Str) : Prop :=
  ∃ pre a b post, expr = pre ++ a :: b :: post ∧ isOpCh a ∧ isOpCh b

/-- Spec: "if it ends mid-operator": the last character is an operator. -/
def EndsWithOp (expr : Str) : Prop := ∃ pre a, expr = pre ++ [a] ∧ isOpCh a

/-- Spec: "if any character is outside the allowed set". -/
def HasBadChar (expr : Str) : Prop := ∃ c ∈ expr, ¬isDigitCh c ∧ ¬isOpCh c

/-- Spec: "fails if divisor is 0, or if the mathematical quotient is not an
exact integer", checked along the left-to-right `×`/`÷` pass: `cur` is the
running value, the pairs carry the already-parsed numbers. -/
def divFailB (cur : Nat) : List (Nat × Nat) → Bool
  | [] => false
  | (op, n) :: rest =>
    if op = 215 then divFailB (cur * n) rest
    else if op = 247 then decide (n = 0) || decide (cur % n ≠ 0) || divFailB (cur / n) rest
    else divFailB n rest

/-- A division failure occurs while evaluating `expr` (requires `expr` to
tokenize). -/
def DivFail (expr : Str) : Prop :=
  match tokenize expr with
  | none => False
  | some (first, pairs) =>
    divFailB (digitsToNat first) (pairs.map fun p => (p.1, digitsToNat p.2)) = true

/-- Modelled from the spec's wording of the first pass: "resolves all × and ÷
left-to-right, reducing to a flat list of numbers separated only by + and -".
Returns that flat list of numbers together with the interleaved `+`/`-`
operators. -/
def specMulPass (cur : Nat) : List (Nat × Str) → Option (List Nat × List Nat)
  | [] => some ([cur], [])
  | (op, numStr) :: rest =>
    let num := digitsToNat numStr
    if op = 215 then specMulPass (cur * num) rest
    else if op = 247 then
      if num = 0 ∨ cur % num ≠ 0 then none else specMulPass (cur / num) rest
    else
      match specMulPass num rest with
      | none => none
      | some (nums, addops) => some (cur :: nums, op :: addops)

/-- Modelled from the spec's wording of evaluation: tokenize, first pass
(`specMulPass`), then "the second pass folds the remaining + and - left-to-right"
(`addFold`). -/
def specEvaluate (expr : Str) : Option Int :=
  match tokenize expr with
  | none => none
  | some (first, pairs) =>
    match specMulPass (digitsToNat first) pairs with
    | none => none
    | some (nums, addops) => addFold nums addops

/-- Spec: "multiply-by-31 rolling hash with 32-bit signed overflow
wraparound": `hash = (hash*31 + charCode) wrapped to 32-bit signed`. -/
def spec31Hash (s : Str) : Int := s.foldl (fun (h : Int) (c : Nat) => toInt32 (h * 31 + c)) 0

/-- Occurrences of the character `c` in a string. -/
def charCount (c : Nat) : Str → Nat
  | [] => 0
  | s :: ss => (if s = c then 1 else 0) + charCount c ss

/-- Number of positions marked `correct` or `present` whose guess character
is `c` (result and guess walked in parallel). -/
def markedCount (c : Nat) : List CellState → Str → Nat
  | r :: rs, g :: gs =>
    (if (r = correct ∨ r = present) ∧ g = c then 1 else 0) + markedCount c rs gs
  | _, _ => 0

/-- Number of consumed solution positions holding the character `c`. -/
def usedCount (c : Nat) : List Bool → Str → Nat
  | u :: us, s :: ss => (if u = true ∧ s = c then 1 else 0) + usedCount c us ss
  | _, _ => 0

/-!
## Decidable per-target checks

`targetCheck` bundles every concrete fact needed about one target in `[1,99]`;
a single kernel evaluation over `List.range 99` settles all of them.
-/

/-- Does some single-digit `a op b` evaluate to `target`? (The search space of
the length-3 block of `findSolution`.) -/
def digitPairExists (target : Nat) : Bool :=
  opsList.any fun op =>
    (List.range 10).any fun a =>
      (List.range 10).any fun b =>
        decide (evaluate [48 + a, op, 48 + b] = some (target : Int))

/-- Concrete facts about one target: shape of the canonical solution, its
validity, and which targets reach the `findSolution` fallback. -/
def targetCheck (t : Nat) : Bool :=
  let sol := getCanonicalSolution t
  decide (sol.length = 6) &&
  decide (charCount 61 sol = 1) &&
  (match jsSplit 61 sol with
   | [l, r] => decide (r = natToChars t) && decide (evaluate l = some (t : Int))
   | _ => false) &&
  (validateGuess sol t).valid &&
  (decide (9 < t) || (findSolution t 4).any isOpCh) &&
  (decide (t < 10) || ((findSolution t 3).any isOpCh == digitPairExists t)) &&
  (decide (t < 10) || (findSolution t 3).any isOpCh
    || decide (findSolution t 3 = padStart 3 48 (natToChars t)))

theorem smallTargets_check : ((List.range 9).all fun k => targetCheck (k + 1)) = true := by
  decide

/-!
## Character classes and failure-predicate decompositions
-/

theorem isDigitCh_not_op {c : Nat} (h : isDigitCh c = true) : isOpCh c = false := by
  simp only [isDigitCh, Bool.and_eq_true, decide_eq_true_eq] at h
  simp only [isOpCh, Bool.or_eq_false_iff, beq_eq_false_iff_ne, ne_eq]
  omega

theorem startsWithOp_nil : ¬StartsWithOp [] := by
  rintro ⟨c, rest, h, -⟩; cases h

theorem startsWithOp_cons {c : Nat} {cs : Str} : StartsWithOp (c :: cs) ↔ isOpCh c = true := by
  constructor
  · rintro ⟨d, r, h, hop⟩; cases h; exact hop
  · intro h; exact ⟨c, cs, rfl, h⟩

theorem hasAdjacentOps_nil : ¬HasAdjacentOps [] := by
  rintro ⟨pre, a, b, post, h, -, -⟩
  cases pre <;> cases h

theorem hasAdjacentOps_cons {c : Nat} {cs : Str} :
    HasAdjacentOps (c :: cs) ↔ (isOpCh c = true ∧ StartsWithOp cs) ∨ HasAdjacentOps cs := by
  constructor
  · rintro ⟨pre, a, b, post, h, ha, hb⟩
    cases pre with
    | nil =>
      rw [List.nil_append] at h
      injection h with h1 h2
      subst h1; subst h2
      exact Or.inl ⟨ha, b, post, rfl, hb⟩
    | cons x pre' =>
      rw [List.cons_append] at h
      injection h with h1 h2
      subst h1; subst h2
      exact Or.inr ⟨pre', a, b, post, rfl, ha, hb⟩
  · rintro (⟨hc, d, r, rfl, hd⟩ | ⟨pre, a, b, post, rfl, ha, hb⟩)
    · exact ⟨[], c, d, r, rfl, hc, hd⟩
    · exact ⟨c :: pre, a, b, post, rfl, ha, hb⟩

theorem endsWithOp_nil : ¬EndsWithOp [] := by
  rintro ⟨pre, a, h, -⟩
  cases pre <;> cases h

theorem endsWithOp_cons {c : Nat} {cs : Str} :
    EndsWithOp (c :: cs) ↔ (cs = [] ∧ isOpCh c = true) ∨ EndsWithOp cs := by
  constructor
  · rintro ⟨pre, a, h, ha⟩
    cases pre with
    | nil =>
      rw [List.nil_append] at h
      injection h with h1 h2
      subst h1; subst h2
      exact Or.inl ⟨rfl, ha⟩
    | cons x pre' =>
      rw [List.cons_append] at h
      injection h with h1 h2
      subst h1; subst h2
      exact Or.inr ⟨pre', a, rfl, ha⟩
  · rintro (⟨rfl, hc⟩ | ⟨pre, a, rfl, ha⟩)
    · exact ⟨[], c, rfl, hc⟩
    · exact ⟨c :: pre, a, rfl, ha⟩

theorem hasBadChar_nil : ¬HasBadChar [] := by
  rintro ⟨c, hmem, -⟩; cases hmem

theorem hasBadChar_cons {c : Nat} {cs : Str} :
    HasBadChar (c :: cs) ↔ (isDigitCh c = false ∧ isOpCh c = false) ∨ HasBadChar cs := by
  constructor
  · rintro ⟨d, hmem, hd1, hd2⟩
    rcases List.mem_cons.mp hmem with rfl | hmem'
    · exact Or.inl ⟨Bool.not_eq_true _ ▸ Bool.of_not_eq_true hd1, Bool.of_not_eq_true hd2⟩
    · exact Or.inr ⟨d, hmem', hd1, hd2⟩
  · rintro (⟨h1, h2⟩ | ⟨d, hmem, hd1, hd2⟩)
    · exact ⟨c, List.mem_cons_self c cs, by simp [h1], by simp [h2]⟩
    · exact ⟨d, List.mem_cons_of_mem c hmem, hd1, hd2⟩

/-!
## Tokenizer failure characterization
-/

theorem tokenizeAux_eq_none_iff : ∀ (expr buf : Str),
    tokenizeAux buf expr = none ↔
      (buf = [] ∧ (expr = [] ∨ StartsWithOp expr)) ∨
        HasAdjacentOps expr ∨ EndsWithOp expr ∨ HasBadChar expr := by
  intro expr
  induction expr with
  | nil =>
    intro buf
    simp [tokenizeAux, List.isEmpty_iff, startsWithOp_nil, hasAdjacentOps_nil,
      endsWithOp_nil, hasBadChar_nil]
  | cons c cs ih =>
    intro buf
    by_cases hd : isDigitCh c = true
    · have hop : isOpCh c = false := isDigitCh_not_op hd
      have hstep : tokenizeAux buf (c :: cs) = tokenizeAux (buf ++ [c]) cs := by
        simp [tokenizeAux, hd]
      rw [hstep, ih (buf ++ [c])]
      simp [hasAdjacentOps_cons, endsWithOp_cons, hasBadChar_cons, startsWithOp_cons, hd, hop]
    · by_cases hop : isOpCh c = true
      · by_cases hbuf : buf = []
        · subst hbuf
          have hstep : tokenizeAux ([] : Str) (c :: cs) = none := by
            simp [tokenizeAux, hd, hop]
          simp [hstep, startsWithOp_cons, hop]
        · have hstep : tokenizeAux buf (c :: cs)
              = match tokenizeAux [] cs with
                | none => none
                | some (n2, rest) => some (buf, (c, n2) :: rest) := by
            simp [tokenizeAux, hd, hop, List.isEmpty_iff, hbuf]
          rw [hstep]
          have hrec : (match tokenizeAux [] cs with
              | none => none
              | some (n2, rest) => some (buf, (c, n2) :: rest)) = none
              ↔ tokenizeAux [] cs = none := by
            cases tokenizeAux [] cs with
            | none => simp
            | some v => obtain ⟨n2, rest⟩ := v; simp
          rw [hrec, ih []]
          simp only [hasAdjacentOps_cons, endsWithOp_cons, hasBadChar_cons, startsWithOp_cons,
            hop, hd, hbuf]
          simp
          tauto
      · have hstep : tokenizeAux buf (c :: cs) = none := by
          simp [tokenizeAux, hd, hop]
        simp [hstep, hasBadChar_cons, hd, hop]

theorem tokenize_eq_none_iff (expr : Str) :
    tokenize expr = none ↔
      expr = [] ∨ StartsWithOp expr ∨ HasAdjacentOps expr ∨ EndsWithOp expr ∨ HasBadChar expr := by
  rw [tokenize, tokenizeAux_eq_none_iff]
  tauto

/-!
## The evaluator realizes the spec's two-pass description
-/

theorem evalLoop_eq_specMulPass : ∀ (pairs : List (Nat × Str)) (cur : Nat) (below ops : List Nat),
    evalLoop (cur :: below) ops pairs =
      (specMulPass cur pairs).map fun r => (r.1.reverse ++ below, r.2.reverse ++ ops) := by
  intro pairs
  induction pairs with
  | nil => intro cur below ops; simp [evalLoop, specMulPass]
  | cons p rest ih =>
    obtain ⟨op, numStr⟩ := p
    intro cur below ops
    by_cases h215 : op = 215
    · subst h215
      simp only [evalLoop, specMulPass]
      simp [ih]
    · by_cases h247 : op = 247
      · subst h247
        by_cases hz : digitsToNat numStr = 0
        · simp [evalLoop, specMulPass, hz, h215]
        · by_cases hm : cur % digitsToNat numStr = 0
          · simp [evalLoop, specMulPass, hz, hm, h215, ih]
          · simp [evalLoop, specMulPass, hz, hm, h215]
      · have hor : ¬(op = 215 ∨ op = 247) := by tauto
        simp only [evalLoop, specMulPass, if_neg hor, if_neg h215, if_neg h247]
        rw [ih]
        cases hsp : specMulPass (digitsToNat numStr) rest with
        | none => simp
        | some r => obtain ⟨nums, addops⟩ := r; simp

theorem evaluate_eq_specEvaluate (expr : Str) : evaluate expr = specEvaluate expr := by
  unfold evaluate specEvaluate
  cases htk : tokenize expr with
  | none => rfl
  | some ft =>
    obtain ⟨first, pairs⟩ := ft
    dsimp only
    rw [evalLoop_eq_specMulPass pairs (digitsToNat first) [] []]
    cases hsp : specMulPass (digitsToNat first) pairs with
    | none => rfl
    | some r => obtain ⟨nums, addops⟩ := r; simp

theorem specMulPass_fst_ne_nil : ∀ (pairs : List (Nat × Str)) (cur : Nat) (nums addops : List Nat),
    specMulPass cur pairs = some (nums, addops) → nums ≠ [] := by
  intro pairs
  induction pairs with
  | nil => intro cur nums addops h; simp [specMulPass] at h; simp [h.1.symm]
  | cons p rest ih =>
    obtain ⟨op, numStr⟩ := p
    intro cur nums addops h
    simp only [specMulPass] at h
    split at h
    · exact ih _ _ _ h
    · split at h
      · split at h
        · cases h
        · exact ih _ _ _ h
      · split at h
        · cases h
        · rename_i nums' addops' heq
          injection h with h1
          injection h1 with h2 h3
          subst h2
          simp

theorem specMulPass_eq_none_iff : ∀ (pairs : List (Nat × Str)) (cur : Nat),
    specMulPass cur pairs = none
      ↔ divFailB cur (pairs.map fun p => (p.1, digitsToNat p.2)) = true := by
  intro pairs
  induction pairs with
  | nil => intro cur; simp [specMulPass, divFailB]
  | cons p rest ih =>
    obtain ⟨op, numStr⟩ := p
    intro cur
    by_cases h215 : op = 215
    · subst h215; simp [specMulPass, divFailB, ih]
    · by_cases h247 : op = 247
      · subst h247
        by_cases hz : digitsToNat numStr = 0
        · simp [specMulPass, divFailB, hz, h215]
        · by_cases hm : cur % digitsToNat numStr = 0
          · simp [specMulPass, divFailB, hz, hm, h215, ih]
          · simp [specMulPass, divFailB, hz, hm, h215]
      · simp only [specMulPass, divFailB, if_neg h215, if_neg h247, List.map_cons]
        rw [← ih (digitsToNat numStr)]
        cases hsp : specMulPass (digitsToNat numStr) rest with
        | none => simp
        | some r => obtain ⟨nums, addops⟩ := r; simp

theorem evaluate_eq_none_iff (expr : Str) :
    evaluate expr = none ↔
      expr = [] ∨ StartsWithOp expr ∨ HasAdjacentOps expr ∨ EndsWithOp expr ∨
        HasBadChar expr ∨ DivFail expr := by
  rw [evaluate_eq_specEvaluate]
  unfold specEvaluate DivFail
  cases htk : tokenize expr with
  | none =>
    have hsyn := (tokenize_eq_none_iff expr).mp htk
    dsimp only
    constructor
    · intro _; tauto
    · intro _; trivial
  | some ft =>
    obtain ⟨first, pairs⟩ := ft
    have hsyn : ¬(expr = [] ∨ StartsWithOp expr ∨ HasAdjacentOps expr ∨ EndsWithOp expr ∨
        HasBadChar expr) := by
      intro h
      have : tokenize expr = none := (tokenize_eq_none_iff expr).mpr h
      rw [htk] at this
      cases this
    cases hsp : specMulPass (digitsToNat first) pairs with
    | none =>
      have hdf := (specMulPass_eq_none_iff pairs (digitsToNat first)).mp hsp
      dsimp only
      rw [hsp]
      simp
      tauto
    | some r =>
      obtain ⟨nums, addops⟩ := r
      have hne := specMulPass_fst_ne_nil pairs (digitsToNat first) nums addops hsp
      have hdf : ¬(divFailB (digitsToNat first) (pairs.map fun p => (p.1, digitsToNat p.2)) = true) := by
        intro h
        have := (specMulPass_eq_none_iff pairs (digitsToNat first)).mpr h
        rw [hsp] at this
        cases this
      rw [Bool.not_eq_true] at hdf
      obtain ⟨n, rest, rfl⟩ : ∃ n rest, nums = n :: rest := by
        cases nums with
        | nil => exact absurd rfl hne
        | cons n rest => exact ⟨n, rest, rfl⟩
      dsimp only
      rw [hsp]
      simp [addFold]
      tauto

/-!
## Decimal strings: `String(n)` facts and round trips
-/

theorem natToCharsAux_all_digits :
    ∀ (fuel n : Nat), ∀ c ∈ natToCharsAux fuel n, isDigitCh c = true := by
  intro fuel
  induction fuel with
  | zero => intro n c hc; cases hc
  | succ f ih =>
    intro n c hc
    rw [natToCharsAux] at hc
    split at hc
    · rw [List.mem_singleton] at hc
      subst hc
      simp only [isDigitCh, Bool.and_eq_true, decide_eq_true_eq]
      omega
    · rcases List.mem_cons.mp hc with rfl | h
      · have : n % 10 < 10 := Nat.mod_lt _ (by norm_num)
        simp only [isDigitCh, Bool.and_eq_true, decide_eq_true_eq]
        omega
      · exact ih _ _ h

theorem natToChars_all_digits (n : Nat) : ∀ c ∈ natToChars n, isDigitCh c = true := by
  intro c hc
  rw [natToChars, List.mem_reverse] at hc
  exact natToCharsAux_all_digits _ _ _ hc

theorem natToChars_ne_nil (n : Nat) : natToChars n ≠ [] := by
  rw [natToChars, ← List.length_pos, List.length_reverse, List.length_pos, natToCharsAux]
  split <;> simp

theorem natToCharsAux_foldr : ∀ (fuel n : Nat), n < fuel →
    (natToCharsAux fuel n).foldr (fun d acc => acc * 10 + (d - 48)) 0 = n := by
  intro fuel
  induction fuel with
  | zero => intro n hn; omega
  | succ f ih =>
    intro n hn
    rw [natToCharsAux]
    by_cases h10 : n < 10
    · simp only [if_pos h10, List.foldr_cons, List.foldr_nil]
      omega
    · rw [if_neg h10, List.foldr_cons, ih (n / 10) (by omega)]
      omega

theorem digitsToNat_natToChars (n : Nat) : digitsToNat (natToChars n) = n := by
  rw [digitsToNat, natToChars, List.foldl_reverse]
  exact natToCharsAux_foldr (n + 1) n (Nat.lt_succ_self n)

/-!
## Digit runs evaluate to their decimal value
-/

theorem tokenizeAux_all_digits : ∀ (ds buf : Str), ds.all isDigitCh = true →
    tokenizeAux buf ds = if buf ++ ds = [] then none else some (buf ++ ds, []) := by
  intro ds
  induction ds with
  | nil =>
    intro buf h
    rw [List.append_nil, tokenizeAux]
    rcases buf with _ | ⟨b, bs⟩ <;> simp
  | cons d ds ih =>
    intro buf h
    simp only [List.all_cons, Bool.and_eq_true] at h
    rw [show tokenizeAux buf (d :: ds) = tokenizeAux (buf ++ [d]) ds by
      simp [tokenizeAux, h.1]]
    rw [ih _ h.2]
    simp

theorem evaluate_digit_run (ds : Str) (hne : ds ≠ []) (hall : ds.all isDigitCh = true) :
    evaluate ds = some ((digitsToNat ds : Int)) := by
  unfold evaluate tokenize
  rw [tokenizeAux_all_digits ds [] hall, List.nil_append, if_neg hne]
  simp [evalLoop, addFold]

/-!
## `split` and `Number` facts
-/

theorem jsSplit_ne_nil (sep : Nat) : ∀ s : Str, jsSplit sep s ≠ [] := by
  intro s
  induction s with
  | nil => simp [jsSplit]
  | cons c cs ih =>
    rw [jsSplit]
    split
    · simp
    · cases hcs : jsSplit sep cs with
      | nil => exact absurd hcs ih
      | cons p ps => simp

theorem jsSplit_length (sep : Nat) : ∀ s : Str, (jsSplit sep s).length = charCount sep s + 1 := by
  intro s
  induction s with
  | nil => simp [jsSplit, charCount]
  | cons c cs ih =>
    rw [jsSplit, charCount]
    by_cases h : c = sep
    · simp [h, ih]
      omega
    · rw [if_neg h]
      cases hcs : jsSplit sep cs with
      | nil => exact absurd hcs (jsSplit_ne_nil sep cs)
      | cons p ps =>
        rw [hcs] at ih
        simp only [List.length_cons] at ih ⊢
        simp [if_neg h, ih]

theorem jsNumber_natToChars (t : Nat) : jsNumber (natToChars t) = some (t : Int) := by
  obtain ⟨c, cs, hc⟩ : ∃ c cs, natToChars t = c :: cs := by
    cases h : natToChars t with
    | nil => exact absurd h (natToChars_ne_nil t)
    | cons c cs => exact ⟨c, cs, rfl⟩
  have hdig : isDigitCh c = true := natToChars_all_digits t c (hc ▸ List.mem_cons_self c cs)
  have hall : (c :: cs).all isDigitCh = true := by
    rw [← hc]
    rw [List.all_eq_true]
    intro x hx
    exact natToChars_all_digits t x hx
  have h43 : c ≠ 43 := by
    simp only [isDigitCh, Bool.and_eq_true, decide_eq_true_eq] at hdig
    omega
  have h45 : c ≠ 45 := by
    simp only [isDigitCh, Bool.and_eq_true, decide_eq_true_eq] at hdig
    omega
  rw [hc]
  simp only [jsNumber, if_neg h43, if_neg h45, if_pos hall]
  rw [← hc, digitsToNat_natToChars]

/-!
## Daily-target hash
-/

theorem hashStep_eq_spec (h : Int) (c : Nat) : hashStep h c = toInt32 (h * 31 + c) := by
  unfold hashStep toInt32
  omega

theorem jsHash_eq_spec31Hash (s : Str) : jsHash s = spec31Hash s := by
  unfold jsHash spec31Hash
  have hfun : hashStep = fun (h : Int) (c : Nat) => toInt32 (h * 31 + c) := by
    funext h c
    exact hashStep_eq_spec h c
  rw [hfun]

theorem getDailyTarget_bounds (y m d : Nat) :
    1 ≤ getDailyTarget y m d ∧ getDailyTarget y m d ≤ 99 := by
  unfold getDailyTarget mask31
  generalize jsHash (dateString y m d) = h
  omega

/-!
## Validation messages are pairwise distinct
-/

theorem ne_of_head {a b : Nat} {xs ys : List Nat} (h : a ≠ b) : a :: xs ≠ b :: ys := by
  intro hcontra
  injection hcontra with h1 _
  exact h h1

theorem ne_of_second {a b c d : Nat} {xs ys : List Nat} (h : b ≠ d) :
    a :: b :: xs ≠ c :: d :: ys := by
  intro hcontra
  injection hcontra with _ h2
  injection h2 with h3 _
  exact h h3

theorem messages_distinct (v : Int) (t : Nat) :
    msgLength ≠ msgOneEq ∧ msgLength ≠ msgSides ∧ msgLength ≠ msgRight t ∧
    msgLength ≠ msgInvalid ∧ msgLength ≠ msgNotTarget v t ∧
    msgOneEq ≠ msgSides ∧ msgOneEq ≠ msgRight t ∧ msgOneEq ≠ msgInvalid ∧
    msgOneEq ≠ msgNotTarget v t ∧
    msgSides ≠ msgRight t ∧ msgSides ≠ msgInvalid ∧ msgSides ≠ msgNotTarget v t ∧
    msgRight t ≠ msgInvalid ∧ msgRight t ≠ msgNotTarget v t ∧
    msgInvalid ≠ msgNotTarget v t := by
  obtain ⟨rR, hR⟩ : ∃ rest, msgRight t = 82 :: rest := ⟨_, rfl⟩
  obtain ⟨rN, hN⟩ : ∃ rest, msgNotTarget v t = 69 :: 120 :: rest := ⟨_, rfl⟩
  obtain ⟨rL, hL⟩ : ∃ rest, msgLength = 69 :: 113 :: rest := ⟨_, rfl⟩
  obtain ⟨rO, hO⟩ : ∃ rest, msgOneEq = 69 :: 113 :: rest := ⟨_, rfl⟩
  obtain ⟨rS, hS⟩ : ∃ rest, msgSides = 66 :: rest := ⟨_, rfl⟩
  obtain ⟨rI, hI⟩ : ∃ rest, msgInvalid = 73 :: rest := ⟨_, rfl⟩
  refine ⟨by decide, by decide, ?_, by decide, ?_, by decide, ?_, by decide, ?_, ?_,
    by decide, ?_, ?_, ?_, ?_⟩
  · rw [hL, hR]; exact ne_of_head (by decide)
  · rw [hL, hN]; exact ne_of_second (by decide)
  · rw [hO, hR]; exact ne_of_head (by decide)
  · rw [hO, hN]; exact ne_of_second (by decide)
  · rw [hS, hR]; exact ne_of_head (by decide)
  · rw [hS, hN]; exact ne_of_head (by decide)
  · rw [hR, hI]; exact ne_of_head (by decide)
  · rw [hR, hN]; exact ne_of_head (by decide)
  · rw [hI, hN]; exact ne_of_head (by decide)

/-!
## The validator's six checks, in order, with their reasons
-/

theorem validateGuess_spec (guess : Str) (target : Nat) :
    (guess.length ≠ 6 → validateGuess guess target = ⟨false, some msgLength⟩) ∧
    (guess.length = 6 → charCount 61 guess ≠ 1 →
      validateGuess guess target = ⟨false, some msgOneEq⟩) ∧
    (∀ l r, guess.length = 6 → jsSplit 61 guess = [l, r] →
      ((l = [] ∨ r = []) → validateGuess guess target = ⟨false, some msgSides⟩) ∧
      (l ≠ [] → r ≠ [] → r ≠ natToChars target →
        validateGuess guess target = ⟨false, some (msgRight target)⟩) ∧
      (l ≠ [] → r = natToChars target → evaluate l = none →
        validateGuess guess target = ⟨false, some msgInvalid⟩) ∧
      (∀ v, l ≠ [] → r = natToChars target → evaluate l = some v → v ≠ (target : Int) →
        validateGuess guess target = ⟨false, some (msgNotTarget v target)⟩) ∧
      (l ≠ [] → r = natToChars target → evaluate l = some (target : Int) →
        validateGuess guess target = ⟨true, none⟩)) := by
  refine ⟨?_, ?_, ?_⟩
  · intro h
    unfold validateGuess
    rw [if_pos h]
  · intro h6 hcnt
    unfold validateGuess
    rw [if_neg (by omega)]
    have hlen := jsSplit_length 61 guess
    rcases hsp : jsSplit 61 guess with _ | ⟨a, _ | ⟨b, _ | _⟩⟩
    · exact absurd hsp (jsSplit_ne_nil 61 guess)
    · rfl
    · rw [hsp] at hlen
      simp only [List.length_cons, List.length_nil] at hlen
      omega
    · rfl
  · intro l r h6 hsp
    have hstep : validateGuess guess target =
        (if l.length = 0 ∨ r.length = 0 then (⟨false, some msgSides⟩ : ValidationResult)
        else
          let bad := match jsNumber r with
            | none => true
            | some v => decide (v ≠ (target : Int) ∨ r ≠ natToChars target)
          if bad then ⟨false, some (msgRight target)⟩
          else
            match evaluate l with
            | none => ⟨false, some msgInvalid⟩
            | some leftVal =>
              if leftVal ≠ (target : Int) then ⟨false, some (msgNotTarget leftVal target)⟩
              else ⟨true, none⟩) := by
      unfold validateGuess
      rw [if_neg (by omega), hsp]
    refine ⟨?_, ?_, ?_, ?_, ?_⟩
    · intro hlr
      rw [hstep, if_pos (by rcases hlr with h | h <;> simp [h])]
    · intro hl hr hne
      rw [hstep, if_neg (by simp [List.length_eq_zero]; exact ⟨hl, hr⟩)]
      have hbad : (match jsNumber r with
          | none => true
          | some v => decide (v ≠ (target : Int) ∨ r ≠ natToChars target)) = true := by
        cases jsNumber r with
        | none => rfl
        | some v => simp [hne]
      simp only [hbad, if_true]
    · intro hl hr heval
      subst hr
      rw [hstep, if_neg (by simp [List.length_eq_zero]; exact ⟨hl, natToChars_ne_nil target⟩)]
      have hbad : (match jsNumber (natToChars target) with
          | none => true
          | some v => decide (v ≠ (target : Int) ∨ natToChars target ≠ natToChars target)) = false := by
        rw [jsNumber_natToChars]
        simp
      simp only [hbad]
      rw [if_neg (by simp), heval]
    · intro v hl hr heval hv
      subst hr
      rw [hstep, if_neg (by simp [List.length_eq_zero]; exact ⟨hl, natToChars_ne_nil target⟩)]
      have hbad : (match jsNumber (natToChars target) with
          | none => true
          | some v => decide (v ≠ (target : Int) ∨ natToChars target ≠ natToChars target)) = false := by
        rw [jsNumber_natToChars]
        simp
      simp only [hbad]
      rw [if_neg (by simp), heval]
      dsimp only
      rw [if_pos hv]
    · intro hl hr heval
      subst hr
      rw [hstep, if_neg (by simp [List.length_eq_zero]; exact ⟨hl, natToChars_ne_nil target⟩)]
      have hbad : (match jsNumber (natToChars target) with
          | none => true
          | some v => decide (v ≠ (target : Int) ∨ natToChars target ≠ natToChars target)) = false := by
        rw [jsNumber_natToChars]
        simp
      simp only [hbad]
      rw [if_neg (by simp), heval]
      dsimp only
      rw [if_neg (by simp)]

/-!
## Scorer: counting lemmas
-/

theorem markedCount_set :
    ∀ (res : List CellState) (guess : Str) (i : Nat) (x r : CellState) (g : Nat),
      res[i]? = some r → guess[i]? = some g → ∀ c,
      markedCount c (res.set i x) guess + (if (r = correct ∨ r = present) ∧ g = c then 1 else 0)
        = markedCount c res guess + (if (x = correct ∨ x = present) ∧ g = c then 1 else 0) := by
  intro res
  induction res with
  | nil => intro guess i x r g hr; simp at hr
  | cons r0 rs ih =>
    intro guess i x r g hr hg c
    cases guess with
    | nil => simp at hg
    | cons g0 gs =>
      cases i with
      | zero =>
        rw [List.getElem?_cons_zero, Option.some.injEq] at hr hg
        subst hr; subst hg
        rw [List.set_cons_zero]
        simp only [markedCount]
        omega
      | succ j =>
        rw [List.getElem?_cons_succ] at hr hg
        rw [List.set_cons_succ]
        simp only [markedCount]
        have := ih gs j x r g hr hg c
        omega

theorem usedCount_set :
    ∀ (used : List Bool) (sol : Str) (j : Nat) (x u : Bool) (s : Nat),
      used[j]? = some u → sol[j]? = some s → ∀ c,
      usedCount c (used.set j x) sol + (if u = true ∧ s = c then 1 else 0)
        = usedCount c used sol + (if x = true ∧ s = c then 1 else 0) := by
  intro used
  induction used with
  | nil => intro sol j x u s hu; simp at hu
  | cons u0 us ih =>
    intro sol j x u s hu hs c
    cases sol with
    | nil => simp at hs
    | cons s0 ss =>
      cases j with
      | zero =>
        rw [List.getElem?_cons_zero, Option.some.injEq] at hu hs
        subst hu; subst hs
        rw [List.set_cons_zero]
        simp only [usedCount]
        omega
      | succ j' =>
        rw [List.getElem?_cons_succ] at hu hs
        rw [List.set_cons_succ]
        simp only [usedCount]
        have := ih ss j' x u s hu hs c
        omega

theorem markedCount_replicate (c : Nat) :
    ∀ (n : Nat) (guess : Str), markedCount c (List.replicate n absent) guess = 0 := by
  intro n
  induction n with
  | zero => intro guess; cases guess <;> rfl
  | succ k ih =>
    intro guess
    cases guess with
    | nil => rfl
    | cons g gs => simp [List.replicate_succ, markedCount, ih]

theorem usedCount_replicate (c : Nat) :
    ∀ (n : Nat) (sol : Str), usedCount c (List.replicate n false) sol = 0 := by
  intro n
  induction n with
  | zero => intro sol; cases sol <;> rfl
  | succ k ih =>
    intro sol
    cases sol with
    | nil => rfl
    | cons s ss => simp [List.replicate_succ, usedCount, ih]

theorem usedCount_le_charCount (c : Nat) : ∀ (used : List Bool) (sol : Str),
    usedCount c used sol ≤ charCount c sol := by
  intro used
  induction used with
  | nil => intro sol; cases sol <;> simp [usedCount]
  | cons u us ih =>
    intro sol
    cases sol with
    | nil => simp [usedCount]
    | cons s ss =>
      simp only [usedCount, charCount]
      have := ih ss
      split_ifs <;> omega

/-!
## Scorer: first pass invariants
-/

theorem pass1Go_inv (guess sol : Str) (hg : guess.length = 6) :
    ∀ (k i : Nat) (res : List CellState) (used : List Bool),
      i + k = 6 → res.length = 6 → used.length = 6 →
      (∀ c, markedCount c res guess = usedCount c used sol) →
      (∀ i', i ≤ i' → ∀ r, res[i']? = some r → r = absent) →
      (∀ i', i ≤ i' → ∀ u, used[i']? = some u → u = false) →
      (pass1Go guess sol k i res used).1.length = 6 ∧
      (pass1Go guess sol k i res used).2.length = 6 ∧
      (∀ c, markedCount c (pass1Go guess sol k i res used).1 guess
          = usedCount c (pass1Go guess sol k i res used).2 sol) ∧
      (∀ (i' : Nat) (r : CellState), (pass1Go guess sol k i res used).1[i']? = some r →
        (r = correct ∨ r = absent) →
        (pass1Go guess sol k i res used).1[i']? = some r) := by
  intro k
  induction k with
  | zero =>
    intro i res used hik hres hused hcounts habs hfalse
    exact ⟨hres, hused, hcounts, fun _ _ h _ => h⟩
  | succ k ih =>
    intro i res used hik hres hused hcounts habs hfalse
    have hi6 : i < 6 := by omega
    have hgi : guess[i]? = some guess[i] := List.getElem?_eq_getElem (by omega)
    by_cases heq : guess[i]? = sol[i]?
    · have hstep : pass1Go guess sol (k + 1) i res used
          = pass1Go guess sol k (i + 1) (res.set i correct) (used.set i true) := by
        simp only [pass1Go, if_pos heq]
      rw [hstep]
      have hri : res[i]? = some res[i] := List.getElem?_eq_getElem (by omega)
      have hriabs : res[i] = absent := habs i (le_refl i) _ hri
      have hui : used[i]? = some used[i] := List.getElem?_eq_getElem (by omega)
      have huif : used[i] = false := hfalse i (le_refl i) _ hui
      have hsi : sol[i]? = some guess[i] := by rw [← heq, hgi]
      apply ih (i + 1) _ _ (by omega) (by simp [hres]) (by simp [hused])
      · intro c
        have h1 := markedCount_set res guess i correct res[i] guess[i] hri hgi c
        have h2 := usedCount_set used sol i true used[i] guess[i] hui hsi c
        rw [hriabs] at h1
        rw [huif] at h2
        have h3 := hcounts c
        by_cases hc : guess[i] = c <;> simp [hc] at h1 h2 <;> omega
      · intro i' hi' r hr'
        have : (res.set i correct)[i']? = res[i']? := List.getElem?_set_ne (by omega)
        rw [this] at hr'
        exact habs i' (by omega) r hr'
      · intro i' hi' u hu'
        have : (used.set i true)[i']? = used[i']? := List.getElem?_set_ne (by omega)
        rw [this] at hu'
        exact hfalse i' (by omega) u hu'
    · have hstep : pass1Go guess sol (k + 1) i res used
          = pass1Go guess sol k (i + 1) res used := by
        simp only [pass1Go, if_neg heq]
      rw [hstep]
      exact ih (i + 1) res used (by omega) hres hused hcounts
        (fun i' h => habs i' (by omega)) (fun i' h => hfalse i' (by omega))

theorem pass1Go_no_present (guess sol : Str) :
    ∀ (k i : Nat) (res : List CellState) (used : List Bool),
      (∀ (i' : Nat) (r : CellState), res[i']? = some r → r ≠ present) →
      ∀ (i' : Nat) (r : CellState), (pass1Go guess sol k i res used).1[i']? = some r → r ≠ present := by
  intro k
  induction k with
  | zero => intro i res used h; exact h
  | succ k ih =>
    intro i res used h
    by_cases heq : guess[i]? = sol[i]?
    · have hstep : pass1Go guess sol (k + 1) i res used
          = pass1Go guess sol k (i + 1) (res.set i correct) (used.set i true) := by
        simp only [pass1Go, if_pos heq]
      rw [hstep]
      apply ih
      intro i' r hr'
      by_cases hii : i = i'
      · subst hii
        rcases Nat.lt_or_ge i res.length with hlt | hge
        · rw [List.getElem?_set_self hlt] at hr'
          injection hr' with h1
          subst h1
          simp
        · rw [List.set_eq_of_length_le hge] at hr'
          exact h i r hr'
      · rw [List.getElem?_set_ne hii] at hr'
        exact h i' r hr'
    · have hstep : pass1Go guess sol (k + 1) i res used
          = pass1Go guess sol k (i + 1) res used := by
        simp only [pass1Go, if_neg heq]
      rw [hstep]
      exact ih _ _ _ h

theorem pass1Go_no_empty (guess sol : Str) :
    ∀ (k i : Nat) (res : List CellState) (used : List Bool),
      (∀ (i' : Nat) (r : CellState), res[i']? = some r → r ≠ empty) →
      ∀ (i' : Nat) (r : CellState), (pass1Go guess sol k i res used).1[i']? = some r → r ≠ empty := by
  intro k
  induction k with
  | zero => intro i res used h; exact h
  | succ k ih =>
    intro i res used h
    by_cases heq : guess[i]? = sol[i]?
    · have hstep : pass1Go guess sol (k + 1) i res used
          = pass1Go guess sol k (i + 1) (res.set i correct) (used.set i true) := by
        simp only [pass1Go, if_pos heq]
      rw [hstep]
      apply ih
      intro i' r hr'
      by_cases hii : i = i'
      · subst hii
        rcases Nat.lt_or_ge i res.length with hlt | hge
        · rw [List.getElem?_set_self hlt] at hr'
          injection hr' with h1
          subst h1
          simp
        · rw [List.set_eq_of_length_le hge] at hr'
          exact h i r hr'
      · rw [List.getElem?_set_ne hii] at hr'
        exact h i' r hr'
    · have hstep : pass1Go guess sol (k + 1) i res used
          = pass1Go guess sol k (i + 1) res used := by
        simp only [pass1Go, if_neg heq]
      rw [hstep]
      exact ih _ _ _ h

/-!
## Scorer: second pass invariants
-/

theorem findFirstJ_spec (g : Option Nat) (sol : Str) (used : List Bool) :
    ∀ (k j0 j : Nat), findFirstJ g sol used k j0 = some j →
      used[j]? = some false ∧ g = sol[j]? := by
  intro k
  induction k with
  | zero => intro j0 j h; cases h
  | succ k ih =>
    intro j0 j h
    rw [findFirstJ] at h
    split at h
    · injection h with h1
      subst h1
      rename_i hcond
      exact ⟨hcond.1, hcond.2⟩
    · exact ih _ _ h

theorem pass2Go_inv (guess sol : Str) (hg : guess.length = 6) :
    ∀ (k i : Nat) (res : List CellState) (used : List Bool),
      i + k = 6 → res.length = 6 → used.length = 6 →
      (∀ c, markedCount c res guess = usedCount c used sol) →
      (∀ i', i ≤ i' → ∀ r, res[i']? = some r → r ≠ present) →
      (∀ (i' : Nat) (r : CellState), res[i']? = some r → r ≠ empty) →
      (pass2Go guess sol k i res used).1.length = 6 ∧
      (∀ c, markedCount c (pass2Go guess sol k i res used).1 guess
          = usedCount c (pass2Go guess sol k i res used).2 sol) ∧
      (∀ (i' : Nat) (r : CellState), (pass2Go guess sol k i res used).1[i']? = some r → r ≠ empty) := by
  intro k
  induction k with
  | zero =>
    intro i res used hik hres hused hcounts hpres hne
    exact ⟨hres, hcounts, hne⟩
  | succ k ih =>
    intro i res used hik hres hused hcounts hpres hne
    have hi6 : i < 6 := by omega
    by_cases hcor : res[i]? = some correct
    · have hstep : pass2Go guess sol (k + 1) i res used
          = pass2Go guess sol k (i + 1) res used := by
        simp only [pass2Go, if_pos hcor]
      rw [hstep]
      exact ih (i + 1) res used (by omega) hres hused hcounts
        (fun i' h => hpres i' (by omega)) hne
    · cases hfj : findFirstJ guess[i]? sol used 6 0 with
      | none =>
        have hstep : pass2Go guess sol (k + 1) i res used
            = pass2Go guess sol k (i + 1) res used := by
          simp only [pass2Go, if_neg hcor, hfj]
        rw [hstep]
        exact ih (i + 1) res used (by omega) hres hused hcounts
          (fun i' h => hpres i' (by omega)) hne
      | some j =>
        have hstep : pass2Go guess sol (k + 1) i res used
            = pass2Go guess sol k (i + 1) (res.set i present) (used.set j true) := by
          simp only [pass2Go, if_neg hcor, hfj]
        rw [hstep]
        obtain ⟨huj, hgj⟩ := findFirstJ_spec guess[i]? sol used 6 0 j hfj
        have hgi : guess[i]? = some guess[i] := List.getElem?_eq_getElem (by omega)
        have hsj : sol[j]? = some guess[i] := by rw [← hgj, hgi]
        have hri : res[i]? = some res[i] := List.getElem?_eq_getElem (by omega)
        have hriabs : res[i] = absent := by
          have h1 : res[i] ≠ present := hpres i (le_refl i) _ hri
          have h2 : res[i] ≠ empty := hne i _ hri
          have h3 : res[i] ≠ correct := fun hc => hcor (by rw [hri, hc])
          cases h : res[i] <;> simp_all
        apply ih (i + 1) _ _ (by omega) (by simp [hres]) (by simp [hused])
        · intro c
          have h1 := markedCount_set res guess i present res[i] guess[i] hri hgi c
          have h2 := usedCount_set used sol j true false guess[i] huj hsj c
          rw [hriabs] at h1
          have h3 := hcounts c
          by_cases hc : guess[i] = c <;> simp [hc] at h1 h2 <;> omega
        · intro i' hi' r hr'
          have : (res.set i present)[i']? = res[i']? := List.getElem?_set_ne (by omega)
          rw [this] at hr'
          exact hpres i' (by omega) r hr'
        · intro i' r hr'
          by_cases hii : i = i'
          · subst hii
            rw [List.getElem?_set_self (by omega)] at hr'
            injection hr' with h1
            subst h1
            simp
          · rw [List.getElem?_set_ne hii] at hr'
            exact hne i' r hr'

/-!
## Scorer: correct positions stay correct
-/

theorem pass1Go_getElem?_lt (guess sol : Str) :
    ∀ (k i : Nat) (res : List CellState) (used : List Bool) (i0 : Nat), i0 < i →
      (pass1Go guess sol k i res used).1[i0]? = res[i0]? := by
  intro k
  induction k with
  | zero => intro i res used i0 h; rfl
  | succ k ih =>
    intro i res used i0 h
    by_cases heq : guess[i]? = sol[i]?
    · have hstep : pass1Go guess sol (k + 1) i res used
          = pass1Go guess sol k (i + 1) (res.set i correct) (used.set i true) := by
        simp only [pass1Go, if_pos heq]
      rw [hstep, ih (i + 1) _ _ i0 (by omega), List.getElem?_set_ne (by omega)]
    · have hstep : pass1Go guess sol (k + 1) i res used
          = pass1Go guess sol k (i + 1) res used := by
        simp only [pass1Go, if_neg heq]
      rw [hstep, ih (i + 1) _ _ i0 (by omega)]

theorem pass1Go_correct_at (guess sol : Str) :
    ∀ (k i : Nat) (res : List CellState) (used : List Bool) (i0 : Nat),
      i0 < res.length → i ≤ i0 → i0 < i + k → guess[i0]? = sol[i0]? →
      (pass1Go guess sol k i res used).1[i0]? = some correct := by
  intro k
  induction k with
  | zero => intro i res used i0 _ h1 h2; omega
  | succ k ih =>
    intro i res used i0 hlen h1 h2 heq0
    by_cases hii : i0 = i
    · subst hii
      have hstep : pass1Go guess sol (k + 1) i0 res used
          = pass1Go guess sol k (i0 + 1) (res.set i0 correct) (used.set i0 true) := by
        simp only [pass1Go, if_pos heq0]
      rw [hstep, pass1Go_getElem?_lt guess sol k (i0 + 1) _ _ i0 (by omega),
        List.getElem?_set_self hlen]
    · by_cases heq : guess[i]? = sol[i]?
      · have hstep : pass1Go guess sol (k + 1) i res used
            = pass1Go guess sol k (i + 1) (res.set i correct) (used.set i true) := by
          simp only [pass1Go, if_pos heq]
        rw [hstep]
        exact ih (i + 1) _ _ i0 (by simp [hlen]) (by omega) (by omega) heq0
      · have hstep : pass1Go guess sol (k + 1) i res used
            = pass1Go guess sol k (i + 1) res used := by
          simp only [pass1Go, if_neg heq]
        rw [hstep]
        exact ih (i + 1) _ _ i0 hlen (by omega) (by omega) heq0

theorem pass2Go_preserves_correct (guess sol : Str) :
    ∀ (k i : Nat) (res : List CellState) (used : List Bool) (i0 : Nat),
      res[i0]? = some correct →
      (pass2Go guess sol k i res used).1[i0]? = some correct := by
  intro k
  induction k with
  | zero => intro i res used i0 h; exact h
  | succ k ih =>
    intro i res used i0 h
    by_cases hcor : res[i]? = some correct
    · have hstep : pass2Go guess sol (k + 1) i res used
          = pass2Go guess sol k (i + 1) res used := by
        simp only [pass2Go, if_pos hcor]
      rw [hstep]
      exact ih _ _ _ _ h
    · cases hfj : findFirstJ guess[i]? sol used 6 0 with
      | none =>
        have hstep : pass2Go guess sol (k + 1) i res used
            = pass2Go guess sol k (i + 1) res used := by
          simp only [pass2Go, if_neg hcor, hfj]
        rw [hstep]
        exact ih _ _ _ _ h
      | some j =>
        have hstep : pass2Go guess sol (k + 1) i res used
            = pass2Go guess sol k (i + 1) (res.set i present) (used.set j true) := by
          simp only [pass2Go, if_neg hcor, hfj]
        rw [hstep]
        apply ih
        have hii : i ≠ i0 := fun hc => hcor (by rw [hc, h])
        rw [List.getElem?_set_ne hii]
        exact h

/-!
## Scorer: assembled specification
-/

theorem getGuessResult_spec (guess : Str) (target : Nat) (hg : guess.length = 6) :
    (getGuessResult guess target).length = 6 ∧
    (∀ r ∈ getGuessResult guess target, r ≠ empty) ∧
    (∀ c, markedCount c (getGuessResult guess target) guess
        ≤ charCount c (getCanonicalSolution target)) := by
  have hdef : getGuessResult guess target
      = (pass2Go guess (getCanonicalSolution target) 6 0
          (pass1Go guess (getCanonicalSolution target) 6 0
            (List.replicate 6 absent) (List.replicate 6 false)).1
          (pass1Go guess (getCanonicalSolution target) 6 0
            (List.replicate 6 absent) (List.replicate 6 false)).2).1 := rfl
  have hrepl_res : ∀ (i' : Nat) (r : CellState),
      (List.replicate 6 absent)[i']? = some r → r = absent := by
    intro i' r h
    rw [List.getElem?_replicate] at h
    split at h
    · injection h with h1; exact h1.symm
    · cases h
  have hrepl_used : ∀ (i' : Nat) (u : Bool),
      (List.replicate 6 false)[i']? = some u → u = false := by
    intro i' u h
    rw [List.getElem?_replicate] at h
    split at h
    · injection h with h1; exact h1.symm
    · cases h
  obtain ⟨hlen1, hlen2, hcounts1, -⟩ :=
    pass1Go_inv guess (getCanonicalSolution target) hg 6 0
      (List.replicate 6 absent) (List.replicate 6 false) (by omega) (by simp) (by simp)
      (fun c => by rw [markedCount_replicate, usedCount_replicate])
      (fun i' _ => hrepl_res i') (fun i' _ => hrepl_used i')
  have hnopres := pass1Go_no_present guess (getCanonicalSolution target) 6 0
    (List.replicate 6 absent) (List.replicate 6 false)
    (fun i' r h => by rw [hrepl_res i' r h]; simp)
  have hnoemp := pass1Go_no_empty guess (getCanonicalSolution target) 6 0
    (List.replicate 6 absent) (List.replicate 6 false)
    (fun i' r h => by rw [hrepl_res i' r h]; simp)
  obtain ⟨hlen2', hcounts2, hne2⟩ :=
    pass2Go_inv guess (getCanonicalSolution target) hg 6 0
      (pass1Go guess (getCanonicalSolution target) 6 0
        (List.replicate 6 absent) (List.replicate 6 false)).1
      (pass1Go guess (getCanonicalSolution target) 6 0
        (List.replicate 6 absent) (List.replicate 6 false)).2
      (by omega) hlen1 hlen2 hcounts1 (fun i' _ => hnopres i') hnoemp
  rw [hdef]
  refine ⟨hlen2', ?_, ?_⟩
  · intro r hr
    obtain ⟨n, hn⟩ := List.mem_iff_getElem?.mp hr
    exact hne2 n r hn
  · intro c
    rw [hcounts2 c]
    exact usedCount_le_charCount c _ _

theorem getGuessResult_correct_at (guess : Str) (target : Nat) (i : Nat) (hi : i < 6)
    (heq : guess[i]? = (getCanonicalSolution target)[i]?) :
    (getGuessResult guess target)[i]? = some correct := by
  have hdef : getGuessResult guess target
      = (pass2Go guess (getCanonicalSolution target) 6 0
          (pass1Go guess (getCanonicalSolution target) 6 0
            (List.replicate 6 absent) (List.replicate 6 false)).1
          (pass1Go guess (getCanonicalSolution target) 6 0
            (List.replicate 6 absent) (List.replicate 6 false)).2).1 := rfl
  rw [hdef]
  apply pass2Go_preserves_correct
  exact pass1Go_correct_at guess (getCanonicalSolution target) 6 0
    (List.replicate 6 absent) (List.replicate 6 false) i (by simpa using hi)
    (by omega) (by omega) heq

/-!
## Per-target facts

Targets 1..9 are settled by one small kernel evaluation; two-digit targets
are settled symbolically through a specification of the length-3 search.
-/

theorem targetCheck_small {t : Nat} (h1 : 1 ≤ t) (h2 : t < 10) : targetCheck t = true := by
  have h := smallTargets_check
  rw [List.all_eq_true] at h
  have h3 := h (t - 1) (by rw [List.mem_range]; omega)
  have h4 : t - 1 + 1 = t := by omega
  rw [h4] at h3
  exact h3

theorem natToChars_digit : ∀ a, a < 10 → natToChars a = [48 + a] := by decide

theorem natToChars_len2 : ∀ t, t < 100 → 10 ≤ t → (natToChars t).length = 2 := by decide

theorem isOp_of_mem_opsList {op : Nat} (h : op ∈ opsList) : isOpCh op = true := by
  simp only [opsList, List.mem_cons, List.mem_singleton, List.not_mem_nil, or_false] at h
  rcases h with rfl | rfl | rfl | rfl <;> rfl

theorem isDigitCh_ne_61 {c : Nat} (h : isDigitCh c = true) : c ≠ 61 := by
  simp only [isDigitCh, Bool.and_eq_true, decide_eq_true_eq] at h
  omega

theorem isOpCh_ne_61 {c : Nat} (h : isOpCh c = true) : c ≠ 61 := by
  simp only [isOpCh, Bool.or_eq_true, beq_iff_eq] at h
  omega

theorem charCount_eq_zero {c : Nat} : ∀ {s : Str}, (∀ x ∈ s, x ≠ c) → charCount c s = 0 := by
  intro s
  induction s with
  | nil => intro _; rfl
  | cons x xs ih =>
    intro h
    rw [charCount, if_neg (h x (List.mem_cons_self x xs)), ih (fun y hy => h y (List.mem_cons_of_mem x hy))]

theorem charCount_append (c : Nat) : ∀ (l r : Str),
    charCount c (l ++ r) = charCount c l + charCount c r := by
  intro l r
  induction l with
  | nil => simp [charCount]
  | cons x xs ih => rw [List.cons_append, charCount, charCount, ih]; omega

theorem jsSplit_no_sep {sep : Nat} : ∀ {s : Str}, (∀ x ∈ s, x ≠ sep) → jsSplit sep s = [s] := by
  intro s
  induction s with
  | nil => intro _; rfl
  | cons x xs ih =>
    intro h
    rw [jsSplit, if_neg (h x (List.mem_cons_self x xs)),
      ih (fun y hy => h y (List.mem_cons_of_mem x hy))]

theorem jsSplit_append_sep {sep : Nat} : ∀ {l : Str} (r : Str), (∀ x ∈ l, x ≠ sep) →
    jsSplit sep (l ++ sep :: r) = l :: jsSplit sep r := by
  intro l
  induction l with
  | nil =>
    intro r _
    rw [List.nil_append, jsSplit, if_pos rfl]
  | cons x xs ih =>
    intro r h
    rw [List.cons_append, jsSplit, if_neg (h x (List.mem_cons_self x xs)),
      ih r (fun y hy => h y (List.mem_cons_of_mem x hy))]

theorem padStart_big {t : Nat} (h10 : 10 ≤ t) (h99 : t ≤ 99) :
    padStart 3 48 (natToChars t) = 48 :: natToChars t := by
  unfold padStart
  rw [natToChars_len2 t (by omega) h10]
  rfl

theorem digitsToNat_cons48 (s : Str) : digitsToNat (48 :: s) = digitsToNat s := rfl

theorem evaluate_fallback {t : Nat} (h10 : 10 ≤ t) (h99 : t ≤ 99) :
    evaluate (padStart 3 48 (natToChars t)) = some (t : Int) := by
  rw [padStart_big h10 h99]
  have hall : (48 :: natToChars t).all isDigitCh = true := by
    rw [List.all_cons]
    have h48 : isDigitCh 48 = true := rfl
    rw [h48, Bool.true_and, List.all_eq_true]
    exact natToChars_all_digits t
  rw [evaluate_digit_run _ (by simp) hall, digitsToNat_cons48, digitsToNat_natToChars]

theorem find3_some_spec {t : Nat} {e : Str} (h : find3 t 3 = some e) :
    e.length = 3 ∧ evaluate e = some (t : Int) ∧
    (∀ c ∈ e, isDigitCh c = true ∨ isOpCh c = true) ∧ e.any isOpCh = true := by
  unfold find3 at h
  obtain ⟨op, hop, h⟩ := List.exists_of_findSome?_eq_some h
  obtain ⟨a, ha, h⟩ := List.exists_of_findSome?_eq_some h
  obtain ⟨b, hb, h⟩ := List.exists_of_findSome?_eq_some h
  rw [List.mem_range] at ha hb
  dsimp only at h
  split at h
  · rename_i hcond
    injection h with he
    subst he
    refine ⟨hcond.1, hcond.2, ?_, ?_⟩
    · intro c hc
      rcases List.mem_append.mp hc with hcl | hcr
      · exact Or.inl (natToChars_all_digits a c hcl)
      · rcases List.mem_cons.mp hcr with rfl | hcr'
        · exact Or.inr (isOp_of_mem_opsList hop)
        · exact Or.inl (natToChars_all_digits b c hcr')
    · rw [List.any_eq_true]
      exact ⟨op, List.mem_append.mpr (Or.inr (List.mem_cons_self _ _)),
        isOp_of_mem_opsList hop⟩
  · cases h

theorem find3_eq_none_iff (t : Nat) : find3 t 3 = none ↔ digitPairExists t = false := by
  unfold find3 digitPairExists
  simp only [List.findSome?_eq_none_iff, List.any_eq_false, Bool.not_eq_true,
    List.mem_range, decide_eq_false_iff_not]
  constructor
  · intro h op hop a ha b hb heval
    have h2 := h op hop a ha b hb
    rw [natToChars_digit a ha, natToChars_digit b hb] at h2
    rw [if_pos ⟨rfl, heval⟩] at h2
    cases h2
  · intro h op hop a ha b hb
    rw [natToChars_digit a ha, natToChars_digit b hb]
    rw [if_neg (fun hc => h op hop a ha b hb hc.2)]

theorem findSolution3_eq (t : Nat) :
    findSolution t 3 = match find3 t 3 with
      | some e => e
      | none => padStart 3 48 (natToChars t) := by
  cases h3 : find3 t 3 with
  | none => simp [findSolution, h3]
  | some e => simp [findSolution, h3]

theorem canonical_eq_big {t : Nat} (h10 : 10 ≤ t) (h99 : t ≤ 99) :
    getCanonicalSolution t = findSolution t 3 ++ 61 :: natToChars t := by
  unfold getCanonicalSolution
  dsimp only
  rw [List.length_cons, natToChars_len2 t (by omega) h10]

theorem canonical_facts {t : Nat} (h1 : 1 ≤ t) (h2 : t ≤ 99) :
    (getCanonicalSolution t).length = 6 ∧
    charCount 61 (getCanonicalSolution t) = 1 ∧
    (∃ l, jsSplit 61 (getCanonicalSolution t) = [l, natToChars t] ∧
      evaluate l = some (t : Int)) ∧
    (validateGuess (getCanonicalSolution t) t).valid = true ∧
    (9 < t ∨ (findSolution t 4).any isOpCh = true) ∧
    (t < 10 ∨ (findSolution t 3).any isOpCh = digitPairExists t) ∧
    (t < 10 ∨ (findSolution t 3).any isOpCh = true ∨
      findSolution t 3 = padStart 3 48 (natToChars t)) := by
  rcases Nat.lt_or_ge t 10 with hsmall | hbig
  · have h := targetCheck_small h1 hsmall
    unfold targetCheck at h
    simp only [Bool.and_eq_true, decide_eq_true_eq, Bool.or_eq_true, beq_iff_eq] at h
    obtain ⟨⟨⟨⟨⟨⟨hlen, hcount⟩, hmatch⟩, hvalid⟩, hc6⟩, hc7⟩, hc8⟩ := h
    refine ⟨hlen, hcount, ?_, hvalid, hc6, hc7, by tauto⟩
    rcases hsp : jsSplit 61 (getCanonicalSolution t) with _ | ⟨l, _ | ⟨r, _ | _⟩⟩ <;>
      rw [hsp] at hmatch
    · cases hmatch
    · cases hmatch
    · simp only [Bool.and_eq_true, decide_eq_true_eq] at hmatch
      exact ⟨l, by rw [hmatch.1], hmatch.2⟩
    · cases hmatch
  · -- two-digit target: symbolic route
    have hdigits : ∀ x ∈ natToChars t, x ≠ 61 :=
      fun x hx => isDigitCh_ne_61 (natToChars_all_digits t x hx)
    have hdlen : (natToChars t).length = 2 := natToChars_len2 t (by omega) hbig
    -- facts about the left side, by cases on the length-3 search
    have hleft : (findSolution t 3).length = 3 ∧
        evaluate (findSolution t 3) = some (t : Int) ∧
        (∀ x ∈ findSolution t 3, x ≠ 61) := by
      rw [findSolution3_eq t]
      cases h3 : find3 t 3 with
      | some e =>
        obtain ⟨hl3, hev, halpha, -⟩ := find3_some_spec h3
        exact ⟨hl3, hev, fun x hx => by
          rcases halpha x hx with hd | ho
          · exact isDigitCh_ne_61 hd
          · exact isOpCh_ne_61 ho⟩
      | none =>
        refine ⟨?_, evaluate_fallback hbig h2, ?_⟩
        · rw [padStart_big hbig h2, List.length_cons, hdlen]
        · rw [padStart_big hbig h2]
          intro x hx
          rcases List.mem_cons.mp hx with rfl | hx'
          · omega
          · exact hdigits x hx'
    obtain ⟨hL, hEv, hN61⟩ := hleft
    have hcan := canonical_eq_big hbig h2
    have hsplit : jsSplit 61 (getCanonicalSolution t)
        = [findSolution t 3, natToChars t] := by
      rw [hcan, jsSplit_append_sep (natToChars t) hN61, jsSplit_no_sep hdigits]
    have hlen6 : (getCanonicalSolution t).length = 6 := by
      rw [hcan, List.length_append, List.length_cons, hL, hdlen]
    have hcount1 : charCount 61 (getCanonicalSolution t) = 1 := by
      rw [hcan, charCount_append, charCount_eq_zero hN61, charCount,
        if_pos rfl, charCount_eq_zero hdigits]
    have hvalid : (validateGuess (getCanonicalSolution t) t).valid = true := by
      have hspec := (validateGuess_spec (getCanonicalSolution t) t).2.2
        (findSolution t 3) (natToChars t) hlen6 hsplit
      have := hspec.2.2.2.2 (by rw [← List.length_pos, hL]; omega) rfl hEv
      rw [this]
    refine ⟨hlen6, hcount1, ⟨findSolution t 3, hsplit, hEv⟩, hvalid, Or.inl (by omega),
      Or.inr ?_, Or.inr ?_⟩
    · -- the search returns an operator exactly when a single-digit pair works
      rw [Bool.eq_iff_iff]
      rw [findSolution3_eq t]
      cases h3 : find3 t 3 with
      | some e =>
        obtain ⟨-, -, -, hany⟩ := find3_some_spec h3
        have hdp : digitPairExists t = true := by
          rcases Bool.eq_false_or_eq_true (digitPairExists t) with ht | hf
          · exact ht
          · have := (find3_eq_none_iff t).mpr hf
            rw [h3] at this
            cases this
        simp [hany, hdp]
      | none =>
        have hdp : digitPairExists t = false := (find3_eq_none_iff t).mp h3
        have hnoop : (padStart 3 48 (natToChars t)).any isOpCh = false := by
          rw [padStart_big hbig h2, List.any_eq_false]
          intro x hx
          rcases List.mem_cons.mp hx with rfl | hx'
          · simp [isOpCh]
          · rw [isDigitCh_not_op (natToChars_all_digits t x hx')]
            simp
        simp [hnoop, hdp]
    · -- either an operator-containing match, or exactly the fallback string
      rw [findSolution3_eq t]
      cases h3 : find3 t 3 with
      | some e =>
        obtain ⟨-, -, -, hany⟩ := find3_some_spec h3
        exact Or.inl hany
      | none => exact Or.inr rfl

/-!
## The claims
-/

/-- C1: For every target t in [1,99], `canonicalSolution(t)` is a string of
length exactly 6 containing exactly one `=`, its right side is the decimal
string of t verbatim, its left side evaluates (via `evaluate`) to t, and
`validateGuess(canonicalSolution(t), t)` returns valid = true. -/
theorem claim_C1 (t : Nat) (h1 : 1 ≤ t) (h2 : t ≤ 99) :
    (getCanonicalSolution t).length = 6 ∧
    charCount 61 (getCanonicalSolution t) = 1 ∧
    (∃ l, jsSplit 61 (getCanonicalSolution t) = [l, natToChars t] ∧
      evaluate l = some (t : Int)) ∧
    (validateGuess (getCanonicalSolution t) t).valid = true := by
  obtain ⟨a, b, c, d, -, -, -⟩ := canonical_facts h1 h2
  exact ⟨a, b, c, d⟩

theorem claim_C1_witness :
    (getCanonicalSolution 42).length = 6 ∧
    charCount 61 (getCanonicalSolution 42) = 1 ∧
    (validateGuess (getCanonicalSolution 42) 42).valid = true := by
  obtain ⟨a, b, -, d⟩ := claim_C1 42 (by decide) (by decide)
  exact ⟨a, b, d⟩

/-- C2 counterexample: for target 19 (left length 3) no single-digit pair
`a op b` evaluates to 19, so `findSolution` returns the fallback — the
target's decimal string left-padded with zeros — which contains no operator,
refuting "never reaches the fallback" for targets in [1,99]. -/
theorem claim_C2_counterexample :
    findSolution 19 3 = padStart 3 48 (natToChars 19) ∧
    (findSolution 19 3).any isOpCh = false := by
  decide

/-- C2 amended: for every target t in [1,9] the search returns a structured
match containing an operator; for t in [10,99] it returns an
operator-containing structured match exactly when some single-digit
`a op b` evaluates to t, and otherwise (e.g. t = 19) it returns the
fallback: the decimal string of t left-padded with zeros and containing no
operator. -/
theorem claim_C2_amended (t : Nat) (h1 : 1 ≤ t) (h2 : t ≤ 99) :
    (t ≤ 9 → (findSolution t 4).any isOpCh = true) ∧
    (10 ≤ t → ((findSolution t 3).any isOpCh = true ↔ digitPairExists t = true)) ∧
    (10 ≤ t → (findSolution t 3).any isOpCh = false →
      findSolution t 3 = padStart 3 48 (natToChars t)) := by
  obtain ⟨-, -, -, -, hc6, hc7, hc8⟩ := canonical_facts h1 h2
  refine ⟨?_, ?_, ?_⟩
  · intro h9
    rcases hc6 with h | h
    · omega
    · exact h
  · intro h10
    rcases hc7 with h | h
    · omega
    · rw [h]
  · intro h10 hno
    rcases hc8 with h | h | h
    · omega
    · rw [hno] at h; cases h
    · exact h

theorem claim_C2_amended_witness :
    (findSolution 5 4).any isOpCh = true ∧
    findSolution 19 3 = padStart 3 48 (natToChars 19) :=
  ⟨(claim_C2_amended 5 (by decide) (by decide)).1 (by decide),
    (claim_C2_amended 19 (by decide) (by decide)).2.2 (by decide) (by decide)⟩

/-- C3: `evaluate` implements two-pass precedence: all × and ÷ applications
are resolved left-to-right first, reducing to numbers separated only by +
and -, and then the remaining + and - are folded left-to-right
(`specEvaluate` transcribes that description); in particular
evaluate("6×7") = 42 and evaluate("2+3×4") = 14. -/
theorem claim_C3 :
    (∀ expr : Str, evaluate expr = specEvaluate expr) ∧
    evaluate (ofString "6×7") = some 42 ∧ evaluate (ofString "2+3×4") = some 14 :=
  ⟨evaluate_eq_specEvaluate, by decide, by decide⟩

/-- C4: `evaluate` returns the distinguished FAIL outcome (`none`), and only
then, when the input is empty, an operator appears without a preceding
number (at the start or directly after another operator), the string ends
mid-operator, a character lies outside digits and the four operators, a
divisor is 0, or a quotient is not an exact integer; in particular
evaluate("10÷3") = FAIL and evaluate("5÷0") = FAIL. -/
theorem claim_C4 :
    (∀ expr : Str, evaluate expr = none ↔
      expr = [] ∨ StartsWithOp expr ∨ HasAdjacentOps expr ∨ EndsWithOp expr ∨
        HasBadChar expr ∨ DivFail expr) ∧
    evaluate (ofString "10÷3") = none ∧ evaluate (ofString "5÷0") = none :=
  ⟨evaluate_eq_none_iff, by decide, by decide⟩

/-- C5: `validateGuess` applies its six checks in the spec's fixed order,
short-circuiting on the first failure with a distinct reason per check
(wrong length; not exactly one `=`; an empty side; right side not verbatim
equal to the decimal string of the target; left side failing to evaluate;
left value differing from the target); any string whose length is not 6 is
rejected with the length reason regardless of content, and a guess passing
all checks is reported valid (a win). -/
theorem claim_C5 (guess : Str) (target : Nat) :
    (guess.length ≠ 6 → validateGuess guess target = ⟨false, some msgLength⟩) ∧
    (guess.length = 6 → charCount 61 guess ≠ 1 →
      validateGuess guess target = ⟨false, some msgOneEq⟩) ∧
    (∀ l r, guess.length = 6 → jsSplit 61 guess = [l, r] →
      ((l = [] ∨ r = []) → validateGuess guess target = ⟨false, some msgSides⟩) ∧
      (l ≠ [] → r ≠ [] → r ≠ natToChars target →
        validateGuess guess target = ⟨false, some (msgRight target)⟩) ∧
      (l ≠ [] → r = natToChars target → evaluate l = none →
        validateGuess guess target = ⟨false, some msgInvalid⟩) ∧
      (∀ v, l ≠ [] → r = natToChars target → evaluate l = some v → v ≠ (target : Int) →
        validateGuess guess target = ⟨false, some (msgNotTarget v target)⟩) ∧
      (l ≠ [] → r = natToChars target → evaluate l = some (target : Int) →
        validateGuess guess target = ⟨true, none⟩)) ∧
    (∀ v : Int,
      msgLength ≠ msgOneEq ∧ msgLength ≠ msgSides ∧ msgLength ≠ msgRight target ∧
      msgLength ≠ msgInvalid ∧ msgLength ≠ msgNotTarget v target ∧
      msgOneEq ≠ msgSides ∧ msgOneEq ≠ msgRight target ∧ msgOneEq ≠ msgInvalid ∧
      msgOneEq ≠ msgNotTarget v target ∧
      msgSides ≠ msgRight target ∧ msgSides ≠ msgInvalid ∧ msgSides ≠ msgNotTarget v target ∧
      msgRight target ≠ msgInvalid ∧ msgRight target ≠ msgNotTarget v target ∧
      msgInvalid ≠ msgNotTarget v target) :=
  ⟨(validateGuess_spec guess target).1, (validateGuess_spec guess target).2.1,
    (validateGuess_spec guess target).2.2, fun v => messages_distinct v target⟩

theorem claim_C5_witness :
    validateGuess (ofString "1+1=2") 2 = ⟨false, some msgLength⟩ :=
  (claim_C5 (ofString "1+1=2") 2).1 (by decide)

/-- C6: `getDailyTarget(date)` equals `((h & 0x7fffffff) mod 99) + 1` where
`h` is the multiply-by-31 rolling hash of the local YYYY-MM-DD string with
32-bit signed two's-complement wraparound (the code's
`((hash << 5) - hash + charCode) | 0` step equals `(hash*31 + charCode)`
wrapped to 32-bit signed); consequently the result is always in [1,99] and
identical date strings always yield identical targets. -/
theorem claim_C6 :
    (∀ s : Str, jsHash s = spec31Hash s) ∧
    (∀ y m d : Nat,
      getDailyTarget y m d = mask31 (spec31Hash (dateString y m d)) % 99 + 1) ∧
    (∀ y m d : Nat, 1 ≤ getDailyTarget y m d ∧ getDailyTarget y m d ≤ 99) ∧
    (∀ y1 m1 d1 y2 m2 d2 : Nat, dateString y1 m1 d1 = dateString y2 m2 d2 →
      getDailyTarget y1 m1 d1 = getDailyTarget y2 m2 d2) := by
  refine ⟨jsHash_eq_spec31Hash, ?_, getDailyTarget_bounds, ?_⟩
  · intro y m d
    unfold getDailyTarget
    rw [jsHash_eq_spec31Hash]
  · intro y1 m1 d1 y2 m2 d2 h
    unfold getDailyTarget
    rw [h]

theorem claim_C6_witness :
    (1 ≤ getDailyTarget 2026 2 15 ∧ getDailyTarget 2026 2 15 ≤ 99) ∧
    getDailyTarget 2026 2 15 = getDailyTarget 2026 2 15 :=
  ⟨claim_C6.2.2.1 2026 2 15, claim_C6.2.2.2 2026 2 15 2026 2 15 rfl⟩

/-- C7: `getGuessResult` scores a guess against `canonicalSolution(target)`
in two passes: equal positions are marked correct and consumed (stated here
as: any position where the guess agrees with the canonical solution ends up
correct), then remaining guess positions are marked present by consuming the
first unconsumed matching solution position, else absent. In particular for
target 42 the canonical solution is "6×7=42" and scoring "7×6=42" yields
[present, correct, present, correct, correct, correct]. -/
theorem claim_C7 :
    getCanonicalSolution 42 = ofString "6×7=42" ∧
    getGuessResult (ofString "7×6=42") 42
      = [present, correct, present, correct, correct, correct] ∧
    (∀ (guess : Str) (target : Nat) (i : Nat), i < 6 →
      guess[i]? = (getCanonicalSolution target)[i]? →
      (getGuessResult guess target)[i]? = some correct) :=
  ⟨by decide, by decide, getGuessResult_correct_at⟩

theorem claim_C7_witness :
    (getGuessResult (ofString "7×6=42") 42)[1]? = some correct :=
  claim_C7.2.2 (ofString "7×6=42") 42 1 (by decide) (by decide)

/-- C8 counterexample: a completed win with prior streak 0 and lastDay = 3
under dayNumber = 10 (so lastDay is neither dayNumber - 1 nor 0) stores
streak 1 = 0 + 1: the streak increments even though the claim's condition
fails, because the code resets to 1 rather than leaving the streak alone. -/
theorem claim_C8_counterexample :
    (updateStatsOnFinish ⟨5, 3, 0, 4, [0, 0, 0, 0, 0, 0], 3⟩ true 10 1).streak
        = (⟨5, 3, 0, 4, [0, 0, 0, 0, 0, 0], 3⟩ : GameStats).streak + 1 ∧
    (⟨5, 3, 0, 4, [0, 0, 0, 0, 0, 0], 3⟩ : GameStats).lastDay ≠ 10 - 1 ∧
    (⟨5, 3, 0, 4, [0, 0, 0, 0, 0, 0], 3⟩ : GameStats).lastDay ≠ 0 := by
  refine ⟨?_, by decide, by decide⟩
  rfl

/-- C8 amended: on completion the streak is set to 0 on any loss; on a win
it is set to streak + 1 when lastDay = dayNumber - 1 or lastDay = 0, and is
reset to 1 under any other lastDay — so with a positive prior streak it does
not increment, while a zero prior streak makes the reset value coincide with
an increment. -/
theorem claim_C8_amended (s : GameStats) (w : Bool) (d : Int) (n : Nat) :
    ((updateStatsOnFinish s w d n).streak =
      if w then (if s.lastDay = d - 1 ∨ s.lastDay = 0 then s.streak + 1 else 1) else 0) ∧
    (w = true → ¬(s.lastDay = d - 1 ∨ s.lastDay = 0) → 0 < s.streak →
      (updateStatsOnFinish s w d n).streak ≠ s.streak + 1) := by
  have hval : (updateStatsOnFinish s w d n).streak =
      if w then (if s.lastDay = d - 1 ∨ s.lastDay = 0 then s.streak + 1 else 1) else 0 := by
    cases w with
    | false => rfl
    | true =>
      show (if s.lastDay = d - 1 ∨ s.lastDay = 0 then s.streak + 1 else 1) = _
      rw [if_pos rfl]
  refine ⟨hval, ?_⟩
  intro hw hcond hpos
  rw [hval, hw, if_pos rfl, if_neg hcond]
  omega

theorem claim_C8_amended_witness :
    (updateStatsOnFinish ⟨5, 3, 4, 4, [0, 0, 0, 0, 0, 0], 3⟩ true 10 1).streak
        ≠ (⟨5, 3, 4, 4, [0, 0, 0, 0, 0, 0], 3⟩ : GameStats).streak + 1 :=
  (claim_C8_amended ⟨5, 3, 4, 4, [0, 0, 0, 0, 0, 0], 3⟩ true 10 1).2 rfl
    (by decide) (by decide)

/-- C9: For every guess string of length 6 and every target in [1,99],
`getGuessResult` returns exactly 6 cell states, none of which is `empty`,
and each canonical-solution position is consumed at most once: for every
character c, the number of guess positions holding c that are marked correct
or present never exceeds the number of occurrences of c in the canonical
solution. -/
theorem claim_C9 (guess : Str) (target : Nat) (hg : guess.length = 6)
    (_h1 : 1 ≤ target) (_h2 : target ≤ 99) :
    (getGuessResult guess target).length = 6 ∧
    (∀ r ∈ getGuessResult guess target, r ≠ empty) ∧
    (∀ c, markedCount c (getGuessResult guess target) guess
        ≤ charCount c (getCanonicalSolution target)) :=
  getGuessResult_spec guess target hg

theorem claim_C9_witness :
    (getGuessResult (ofString "1+1=42") 42).length = 6 :=
  (claim_C9 (ofString "1+1=42") 42 (by decide) (by decide) (by decide)).1

/-- C10: `evaluate` parses digit runs with leading zeros as their ordinary
decimal value (evaluate("019") = 19, evaluate("00+5") = 5, and in general a
non-empty all-digit run evaluates to its decimal value), so canonical
solutions may contain leading-zero operands on the left side — for example
canonicalSolution(5) = "00+5=5" — and `validateGuess` accepts such equations
as winning guesses. -/
theorem claim_C10 :
    (∀ ds : Str, ds ≠ [] → ds.all isDigitCh = true → evaluate ds = some (digitsToNat ds)) ∧
    evaluate (ofString "019") = some 19 ∧
    evaluate (ofString "00+5") = some 5 ∧
    getCanonicalSolution 5 = ofString "00+5=5" ∧
    (validateGuess (ofString "00+5=5") 5).valid = true :=
  ⟨evaluate_digit_run, by decide, by decide, by decide, by decide⟩

theorem claim_C10_witness : evaluate [48, 49, 57] = some (digitsToNat [48, 49, 57]) :=
  claim_C10.1 [48, 49, 57] (by decide) (by decide)

end Numbrle
